import Mathlib

/-!
Verification of the gastown work-queue core against its specification.

Go strings are modelled as `List Char`; `time.Duration` and `time.Time`
values as `Int` nanoseconds (Go's `time.Duration` is a 64-bit count of
nanoseconds; wrap-around is modelled explicitly where a multiplication can
overflow).  Fallible operations return `Option`.  Each definition below is
translated from the corresponding Go function, keeping the source's name
where Lean allows it.
-/

/-- Go strings modelled as lists of characters. -/
abbrev Str := List Char

/-- Character data of a Lean string literal, used to write `Str` constants. -/
def str (s : String) : Str := s.data

/-- Character class of Go's `unicode.IsSpace` (the Unicode White_Space
property): `\t`, `\n`, `\v`, `\f`, `\r`, space, NEL, NBSP and the Unicode
space separators. -/
def goIsSpace (c : Char) : Bool :=
  c = ' ' || c = '\t' || c = '\n' || c.toNat = 11 || c.toNat = 12 || c = '\r' ||
  c.toNat = 0x85 || c.toNat = 0xA0 || c.toNat = 0x1680 ||
  (0x2000 ≤ c.toNat && c.toNat ≤ 0x200A) ||
  c.toNat = 0x2028 || c.toNat = 0x2029 || c.toNat = 0x202F ||
  c.toNat = 0x205F || c.toNat = 0x3000

/-- Leading-whitespace removal, the left half of Go's `strings.TrimSpace`. -/
def trimLeftSpace (l : Str) : Str := l.dropWhile goIsSpace

/-- Trailing-whitespace removal, the right half of Go's `strings.TrimSpace`. -/
def trimRightSpace (l : Str) : Str := (l.reverse.dropWhile goIsSpace).reverse

/-- Go's `strings.TrimSpace`. -/
def trimSpace (l : Str) : Str := trimRightSpace (trimLeftSpace l)

/-- Go's `strings.TrimRight(l, "\n")`: drop trailing newline characters. -/
def trimRightNewlines (l : Str) : Str :=
  (l.reverse.dropWhile (fun c => c = '\n')).reverse

/-- Go's `strings.Split(s, sep)` for a single-character separator.  Always
returns a non-empty list; `Split("", sep) = [""]`. -/
def splitOnChar (c : Char) : Str → List Str
  | [] => [[]]
  | x :: xs =>
    if x = c then [] :: splitOnChar c xs
    else
      match splitOnChar c xs with
      | h :: t => (x :: h) :: t
      | [] => [[x]]

/-- Go's `strings.Join(parts, sep)` for a single-character separator. -/
def joinChar (c : Char) : List Str → Str
  | [] => []
  | [l] => l
  | l :: l' :: ls => l ++ c :: joinChar c (l' :: ls)

/-- Boolean prefix test on character lists. -/
def isPrefixList : Str → Str → Bool
  | [], _ => true
  | _ :: _, [] => false
  | a :: as, b :: bs => a = b && isPrefixList as bs

/-- First occurrence of a substring, as in Go's `strings.Index`: returns the
text before and after the first occurrence of `pat`, or `none` when `pat`
does not occur. -/
def findSub (pat : Str) : Str → Option (Str × Str)
  | [] => if isPrefixList pat [] then some ([], []) else none
  | c :: rest =>
    if isPrefixList pat (c :: rest) then some ([], (c :: rest).drop pat.length)
    else (findSub pat rest).map (fun p => (c :: p.1, p.2))

/-- Go's `strings.Contains`. -/
def goContains (pat s : Str) : Bool := (findSub pat s).isSome

/-- Go's `strings.SplitN(s, sep, 2)`: the text before and after the first
occurrence of `sep`, or the whole string when `sep` does not occur. -/
def goSplitN2 (sep s : Str) : List Str :=
  match findSub sep s with
  | none => [s]
  | some (b, a) => [b, a]

/-- Decimal digit character for a value below ten. -/
def digitChar10 (n : Nat) : Char := Char.ofNat (48 + n)

/-- Fueled decimal rendering of a natural number, most significant digit
first. -/
def natToStrAux : Nat → Nat → Str
  | 0, _ => []
  | fuel + 1, n =>
    if n < 10 then [digitChar10 n]
    else natToStrAux fuel (n / 10) ++ [digitChar10 (n % 10)]

/-- Decimal rendering of a natural number (`fmt.Sprintf("%d", n)` for
non-negative values). -/
def natToStr (n : Nat) : Str := natToStrAux (n + 1) n

/-- Go's `fmt.Sprintf("%d", i)` on a (signed) integer. -/
def goItoa (i : Int) : Str :=
  if i < 0 then '-' :: natToStr (-i).toNat else natToStr i.toNat

/-- Decimal digit test. -/
def isDigitChar (c : Char) : Bool := '0' ≤ c && c ≤ '9'

/-- Accumulating decimal parser over digit characters; fails on the first
non-digit. -/
def digitsValAux : Nat → Str → Option Nat
  | acc, [] => some acc
  | acc, c :: cs =>
    if isDigitChar c then digitsValAux (acc * 10 + (c.toNat - 48)) cs else none

/-- Value of a non-empty all-digit string. -/
def digitsVal : Str → Option Nat
  | [] => none
  | c :: cs => digitsValAux 0 (c :: cs)

/-- Largest value of Go's 64-bit `int`. -/
def int64Max : Int := 9223372036854775807

/-- Go's `strconv.Atoi` on a 64-bit platform: optional sign, then decimal
digits; fails on empty input, any non-digit, or 64-bit overflow. -/
def goAtoi : Str → Option Int
  | [] => none
  | c :: rest =>
    if c = '+' then
      (digitsVal rest).bind fun n =>
        if (n : Int) ≤ int64Max then some (n : Int) else none
    else if c = '-' then
      (digitsVal rest).bind fun n =>
        if (n : Int) ≤ int64Max + 1 then some (-(n : Int)) else none
    else
      (digitsVal (c :: rest)).bind fun n =>
        if (n : Int) ≤ int64Max then some (n : Int) else none

/-- ASCII-faithful model of Go's `strings.ToLower` (the transcripts and
patterns the claims touch are ASCII). -/
def goToLower (s : Str) : Str :=
  s.map fun c => if 'A' ≤ c && c ≤ 'Z' then Char.ofNat (c.toNat + 32) else c

/-!
## QueueMetadata codec (`internal/cmd/queue_metadata.go`)
-/

/-- Queue dispatch parameters stored in a bead's description
(`QueueMetadata` in `queue_metadata.go`; Go's zero value has empty strings,
false booleans and a zero counter). -/
structure QueueMetadata where
  targetRig : Str
  formula : Str
  args : Str
  vars : Str
  enqueuedAt : Str
  merge : Str
  convoy : Str
  baseBranch : Str
  noMerge : Bool
  account : Str
  agent : Str
  hookRawBead : Bool
  owned : Bool
  dispatchFailures : Int
  lastFailure : Str
deriving DecidableEq

/-- Zero value of `QueueMetadata` (`&QueueMetadata{}` in Go). -/
def QueueMetadata.empty : QueueMetadata :=
  ⟨[], [], [], [], [], [], [], [], false, [], [], false, false, 0, []⟩

/-- Versioned delimiter `queueMetadataDelimiter`. -/
def delimStr : Str := str "---gt:queue:v1---"

/-- Separator used by the key-value lines (`": "`). -/
def colonSpace : Str := str ": "

/-- Key-value line rendering (`fmt.Sprintf("%s: %s", k, v)`). -/
def renderKV (p : Str × Str) : Str := p.1 ++ colonSpace ++ p.2

/-- Key-value pairs emitted by `FormatQueueMetadata`, in the fixed source
order; only fields with non-zero values are emitted, booleans only when
true, and each non-empty trimmed line of `Vars` becomes one `var:` pair. -/
def formatPairs (m : QueueMetadata) : List (Str × Str) :=
  (if m.targetRig.isEmpty then [] else [(str "target_rig", m.targetRig)])
  ++ (if m.formula.isEmpty then [] else [(str "formula", m.formula)])
  ++ (if m.args.isEmpty then [] else [(str "args", m.args)])
  ++ ((splitOnChar '\n' m.vars).filterMap fun v =>
        let v' := trimSpace v
        if v'.isEmpty then none else some (str "var", v'))
  ++ (if m.enqueuedAt.isEmpty then [] else [(str "enqueued_at", m.enqueuedAt)])
  ++ (if m.merge.isEmpty then [] else [(str "merge", m.merge)])
  ++ (if m.convoy.isEmpty then [] else [(str "convoy", m.convoy)])
  ++ (if m.baseBranch.isEmpty then [] else [(str "base_branch", m.baseBranch)])
  ++ (if m.noMerge then [(str "no_merge", str "true")] else [])
  ++ (if m.account.isEmpty then [] else [(str "account", m.account)])
  ++ (if m.agent.isEmpty then [] else [(str "agent", m.agent)])
  ++ (if m.hookRawBead then [(str "hook_raw_bead", str "true")] else [])
  ++ (if m.owned then [(str "owned", str "true")] else [])
  ++ (if 0 < m.dispatchFailures then
        [(str "dispatch_failures", goItoa m.dispatchFailures)] else [])
  ++ (if m.lastFailure.isEmpty then [] else [(str "last_failure", m.lastFailure)])

/-- The `FormatQueueMetadata` function: the delimiter line followed by one
`key: value` line per emitted field, joined with newlines. -/
def FormatQueueMetadata (m : QueueMetadata) : Str :=
  joinChar '\n' (delimStr :: (formatPairs m).map renderKV)

/-- Parser state of `ParseQueueMetadata`: the record under construction and
the accumulated `var` lines. -/
structure ParseAcc where
  m : QueueMetadata
  varLines : List Str

/-- One step of the `ParseQueueMetadata` key switch.  Unknown keys (and the
legacy `no_boot`) are ignored; `vars` splits its value on commas; a
`dispatch_failures` value that `strconv.Atoi` rejects leaves the counter
unchanged (zero). -/
def applyLine (key val : Str) (acc : ParseAcc) : ParseAcc :=
  if key = str "target_rig" then { acc with m := { acc.m with targetRig := val } }
  else if key = str "formula" then { acc with m := { acc.m with formula := val } }
  else if key = str "args" then { acc with m := { acc.m with args := val } }
  else if key = str "var" then { acc with varLines := acc.varLines ++ [val] }
  else if key = str "vars" then
    { acc with varLines := acc.varLines ++ splitOnChar ',' val }
  else if key = str "enqueued_at" then { acc with m := { acc.m with enqueuedAt := val } }
  else if key = str "merge" then { acc with m := { acc.m with merge := val } }
  else if key = str "convoy" then { acc with m := { acc.m with convoy := val } }
  else if key = str "base_branch" then { acc with m := { acc.m with baseBranch := val } }
  else if key = str "no_merge" then
    { acc with m := { acc.m with noMerge := decide (val = str "true") } }
  else if key = str "account" then { acc with m := { acc.m with account := val } }
  else if key = str "agent" then { acc with m := { acc.m with agent := val } }
  else if key = str "hook_raw_bead" then
    { acc with m := { acc.m with hookRawBead := decide (val = str "true") } }
  else if key = str "no_boot" then acc
  else if key = str "owned" then
    { acc with m := { acc.m with owned := decide (val = str "true") } }
  else if key = str "dispatch_failures" then
    match goAtoi val with
    | some n => { acc with m := { acc.m with dispatchFailures := n } }
    | none => acc
  else if key = str "last_failure" then { acc with m := { acc.m with lastFailure := val } }
  else acc

/-- Line loop of `ParseQueueMetadata`: trim, skip blanks, stop at a second
delimiter, skip lines without `": "`, and apply the key switch. -/
def parseLines : List Str → ParseAcc → ParseAcc
  | [], acc => acc
  | rawLine :: rest, acc =>
    let line := trimSpace rawLine
    if line.isEmpty then parseLines rest acc
    else if line = delimStr then acc
    else
      match goSplitN2 colonSpace line with
      | [k, v] => parseLines rest (applyLine (trimSpace k) (trimSpace v) acc)
      | _ => parseLines rest acc

/-- The `ParseQueueMetadata` function: `none` when the delimiter is absent,
otherwise the record built from the lines after the first delimiter, with
`Vars` set to the newline-join of the `var` lines when any were seen. -/
def ParseQueueMetadata (description : Str) : Option QueueMetadata :=
  match findSub delimStr description with
  | none => none
  | some (_, sect) =>
    let acc := parseLines (splitOnChar '\n' sect) ⟨QueueMetadata.empty, []⟩
    some (if acc.varLines.isEmpty then acc.m
          else { acc.m with vars := joinChar '\n' acc.varLines })

/-- The `StripQueueMetadata` function: everything before the first
delimiter, with trailing newlines trimmed; the input unchanged when no
delimiter occurs. -/
def StripQueueMetadata (description : Str) : Str :=
  match findSub delimStr description with
  | none => description
  | some (pre, _) => trimRightNewlines pre

/-!
## Dispatch loop (`internal/cmd/queue_dispatch.go`)
-/

/-- Circuit-breaker threshold `maxDispatchFailures`. -/
def maxDispatchFailures : Int := 3

/-- One record of the JSON array returned by `bd ready`. -/
structure RawBead where
  id : Str
  title : Str
  description : Str
  labels : List Str
deriving DecidableEq

/-- The `readyQueuedBead` record. -/
structure ReadyQueuedBead where
  id : Str
  title : Str
  targetRig : Str
  description : Str
  labels : List Str
deriving DecidableEq

/-- Ready-bead record built by `getReadyQueuedBeadsFrom` for one raw bead:
the target rig comes from the metadata when it parses, and is empty
otherwise. -/
def readyBeadOf (r : RawBead) : ReadyQueuedBead :=
  match ParseQueueMetadata r.description with
  | some meta => ⟨r.id, r.title, meta.targetRig, r.description, r.labels⟩
  | none => ⟨r.id, r.title, [], r.description, r.labels⟩

/-- Per-bead filtering loop of `getReadyQueuedBeadsFrom` (after the JSON
decode): parse each description and skip beads whose `dispatch_failures`
counter has reached `maxDispatchFailures`.  No per-bead error is possible. -/
def getReadyQueuedBeadsFrom : List RawBead → List ReadyQueuedBead
  | [] => []
  | r :: rest =>
    match ParseQueueMetadata r.description with
    | some meta =>
      if maxDispatchFailures ≤ meta.dispatchFailures then
        getReadyQueuedBeadsFrom rest
      else
        ⟨r.id, r.title, meta.targetRig, r.description, r.labels⟩ ::
          getReadyQueuedBeadsFrom rest
    | none =>
      ⟨r.id, r.title, [], r.description, r.labels⟩ :: getReadyQueuedBeadsFrom rest

/-- The `computeDispatchCount` function; `capacity = 0` means unlimited. -/
def computeDispatchCount (capacity batchSize readyCount : Int) : Int :=
  let toDispatch := batchSize
  let toDispatch := if 0 < capacity && capacity < toDispatch then capacity else toDispatch
  if readyCount < toDispatch then readyCount else toDispatch

/-!
## Idle controller (`internal/daemon`, `deacon_idle_wait.go`)
-/

/-- Nanoseconds per second; Go durations are 64-bit nanosecond counts. -/
def nsPerSec : Int := 1000000000

/-- Backoff floor `minBackoff` (30 seconds). -/
def minBackoff : Int := 30 * nsPerSec

/-- Backoff cap `maxBackoff` (5 minutes). -/
def maxBackoff : Int := 300 * nsPerSec

/-- Two's-complement wrap-around of Go's 64-bit signed arithmetic. -/
def wrap64 (x : Int) : Int :=
  (x + 9223372036854775808) % 18446744073709551616 - 9223372036854775808

/-- The `nextBackoffInterval` function: jump to 30 seconds from below,
otherwise double (64-bit duration multiplication) and cap at 5 minutes. -/
def nextBackoffInterval (current : Int) : Int :=
  if current < minBackoff then minBackoff
  else
    let next := wrap64 (current * 2)
    if next > maxBackoff then maxBackoff else next

/-- Sleep-duration selection of `runDeaconIdleWait` (lines 59-65), reached
when the idle state exists with `Idle = true`: a non-positive backoff
becomes 30 seconds, then the `--max` flag caps the result. -/
def idleWaitSleep (backoffInterval maxFlag : Int) : Int :=
  let sleepDuration := backoffInterval
  let sleepDuration := if sleepDuration ≤ 0 then 30 * nsPerSec else sleepDuration
  if sleepDuration > maxFlag then maxFlag else sleepDuration

/-- Clamp written from the spec's words `clamp(BackoffInterval, 30s, --max
flag)`: raise to the low bound, then cap at the high bound. -/
def clampSpec (x lo hi : Int) : Int := min (max x lo) hi

/-!
## Usage-limit controller (`internal/usagelimit`, `usagelimit_cmd.go`)
-/

/-- The usage-limit `State` record; times are `Int` nanoseconds with the
zero time modelled as `0`. -/
structure UsageLimitState where
  active : Bool
  resetAt : Int
  recordedAt : Int
  recordedBy : Str
  reason : Str
  retryAfterSeconds : Int
  wakeAttempts : Int
  lastWakeAttempt : Int
deriving DecidableEq

/-- Wake buffer after the reset time (`WakeBuffer`, 2 minutes). -/
def wakeBuffer : Int := 120 * nsPerSec

/-- Wake-attempt ceiling (`MaxWakeAttempts`). -/
def maxWakeAttempts : Int := 3

/-- Cooldown between wake attempts (`WakeAttemptCooldown`, 5 minutes). -/
def wakeAttemptCooldown : Int := 300 * nsPerSec

/-- The `State.ShouldWake` method, with `time.Now()` passed explicitly. -/
def UsageLimitState.ShouldWake (s : UsageLimitState) (now : Int) : Bool :=
  if !s.active then false
  else if now < s.resetAt + wakeBuffer then false
  else if maxWakeAttempts ≤ s.wakeAttempts then false
  else if s.lastWakeAttempt ≠ 0 && now - s.lastWakeAttempt < wakeAttemptCooldown then
    false
  else true

/-- The ordered `(pattern, reason)` list of `detectUsageLimit`, verbatim
from the source. -/
def usageLimitPatterns : List (Str × Str) :=
  [ (str "rate_limit_error", str "Anthropic API rate_limit_error"),
    (str "status.*429", str "HTTP 429 Too Many Requests"),
    (str "error.*429", str "HTTP 429 error"),
    (str "429", str "HTTP 429"),
    (str "overloaded_error", str "Anthropic API overloaded_error (529)"),
    (str "rate limit", str "rate limit detected"),
    (str "ratelimit", str "ratelimit detected"),
    (str "too many requests", str "too many requests"),
    (str "usage limit", str "usage limit reached"),
    (str "you\x27ve reached your limit", str "subscription limit reached"),
    (str "you have reached your limit", str "subscription limit reached"),
    (str "exceeded your limit", str "limit exceeded"),
    (str "reached your usage limit", str "usage limit reached"),
    (str "usage cap", str "usage cap reached"),
    (str "token limit", str "token limit reached"),
    (str "tokens per minute", str "TPM limit"),
    (str "requests per minute", str "RPM limit"),
    (str "api limit", str "API limit"),
    (str "request limit", str "request limit") ]

/-- Pattern-scan portion of `detectUsageLimit` (lines 282-331): lowercase
the transcript, then take the reason of the first pattern that
`strings.Contains` finds; `none` when no pattern matches (not limited).
The reset-duration extraction and the `(default 1h reset)` annotation are
applied downstream of this scan. -/
def detectUsageLimitReason (transcript : Str) : Option Str :=
  let lower := goToLower transcript
  (usageLimitPatterns.find? fun p => goContains p.1 lower).map Prod.snd

/-!
## Enqueue engine (`internal/cmd/sling_queue.go`)
-/

/-- The queue label `LabelQueued`. -/
def labelQueued : Str := str "gt:queued"

/-- The `hasQueuedLabel` helper. -/
def hasQueuedLabel (labels : List Str) : Bool :=
  labels.any fun l => decide (l = labelQueued)

/-- The `EnqueueOptions` record. -/
structure EnqueueOptions where
  formula : Str
  args : Str
  vars : List Str
  merge : Str
  baseBranch : Str
  noConvoy : Bool
  owned : Bool
  dryRun : Bool
  force : Bool
  noMerge : Bool
  account : Str
  agent : Str
  hookRawBead : Bool
deriving DecidableEq

/-- Bead fields returned by `getBeadInfo`. -/
structure BeadInfo where
  status : Str
  assignee : Str
  labels : List Str
  description : Str
  title : Str
deriving DecidableEq

/-- Outcome of the validation chain at the top of `enqueueBead`
(lines 40-106), in source order. -/
inductive EnqueueDecision where
  | errBeadNotFound
  | errUnknownRig
  | errCrossRig
  | errBeadInfo
  | noopAlreadyQueued
  | errAlreadyAssigned
  | errFormulaNotFound
  | dryRunPreview
  | proceed
deriving DecidableEq

/-- Validation chain of `enqueueBead` before any store write.  External
probes (`verifyBeadExists`, `IsRigName`, `checkCrossRigGuard`,
`getBeadInfo`, `verifyFormulaExists`) are oracles; the checks run in source
order, and the already-queued no-op check comes after the rig and cross-rig
guards but before the status, formula and dry-run branches. -/
def enqueueDecision (beadExists rigKnown crossRigOk infoOk : Bool)
    (info : BeadInfo) (formulaKnown : Bool) (opts : EnqueueOptions) :
    EnqueueDecision :=
  if !beadExists then .errBeadNotFound
  else if !rigKnown then .errUnknownRig
  else if !opts.force && !crossRigOk then .errCrossRig
  else if !infoOk then .errBeadInfo
  else if hasQueuedLabel info.labels && decide (info.status = str "open") then
    .noopAlreadyQueued
  else if (decide (info.status = str "pinned") || decide (info.status = str "hooked"))
      && !opts.force then
    .errAlreadyAssigned
  else if !opts.formula.isEmpty && !formulaKnown then .errFormulaNotFound
  else if opts.dryRun then .dryRunPreview
  else .proceed

/-- Store state of one bead after the enqueue commit protocol. -/
structure EnqueueOutcome where
  description : Str
  labels : List Str
  ok : Bool
deriving DecidableEq

/-- Commit protocol of `enqueueBead` (lines 148-188): strip the old
metadata, append the new block, write the description, then add the
`gt:queued` label; when the label-add fails the description is rolled back
to the stripped base.  The success/failure of the two `bd update` calls is
passed as oracles. -/
def enqueueCommitProtocol (desc0 : Str) (labels0 : List Str) (metaBlock : Str)
    (descWriteOk labelAddOk : Bool) : EnqueueOutcome :=
  let baseDesc := StripQueueMetadata desc0
  let newDesc := (if baseDesc.isEmpty then [] else baseDesc ++ ['\n']) ++ metaBlock
  if !descWriteOk then ⟨desc0, labels0, false⟩
  else if !labelAddOk then ⟨baseDesc, labels0, false⟩
  else ⟨newDesc, labels0 ++ [labelQueued], true⟩

/-!
## Spec-side definitions used to state the claims
-/

/-- Predicate written from the spec's circuit-breaker sentence: a ready
bead is skipped exactly when its metadata parses with
`dispatch_failures ≥ MAX_FAILURES (3)`. -/
def circuitBreakerSkips (r : RawBead) : Bool :=
  match ParseQueueMetadata r.description with
  | some m => maxDispatchFailures ≤ m.dispatchFailures
  | none => false

/-- Cleanliness of one formatted string field: trim-invariant and free of
newlines, so the field survives the line-oriented codec. -/
def cleanField (s : Str) : Prop := trimSpace s = s ∧ '\n' ∉ s

/-- Cleanliness of the `Vars` field: empty, or every newline-separated
entry is non-empty and trim-invariant. -/
def cleanVars (s : Str) : Prop :=
  s = [] ∨ ∀ l ∈ splitOnChar '\n' s, trimSpace l = l ∧ l ≠ []

/-- Records for which the codec round-trip can hold: every string field is
clean, `Vars` is clean, and the failure counter is a representable
non-negative 64-bit value. -/
def CleanMetadata (m : QueueMetadata) : Prop :=
  cleanField m.targetRig ∧ cleanField m.formula ∧ cleanField m.args ∧
  cleanField m.enqueuedAt ∧ cleanField m.merge ∧ cleanField m.convoy ∧
  cleanField m.baseBranch ∧ cleanField m.account ∧ cleanField m.agent ∧
  cleanField m.lastFailure ∧ cleanVars m.vars ∧
  0 ≤ m.dispatchFailures ∧ m.dispatchFailures ≤ int64Max

instance : DecidablePred cleanField := fun s =>
  decidable_of_iff (trimSpace s = s ∧ '\n' ∉ s) Iff.rfl

instance : DecidablePred cleanVars := fun s =>
  decidable_of_iff (s = [] ∨ ∀ l ∈ splitOnChar '\n' s, trimSpace l = l ∧ l ≠ [])
    Iff.rfl

instance : DecidablePred CleanMetadata := fun m => by
  unfold CleanMetadata; infer_instance

/-- Cleanliness of one emitted key-value pair: the key is non-empty,
colon-free and whitespace-free, the value is non-empty, trim-invariant and
newline-free. -/
def PairClean (p : Str × Str) : Prop :=
  p.1 ≠ [] ∧ ':' ∉ p.1 ∧ (∀ c ∈ p.1, goIsSpace c = false) ∧
  trimSpace p.2 = p.2 ∧ p.2 ≠ [] ∧ '\n' ∉ p.2

/-- Fully-populated sample record, mirroring the round-trip unit test. -/
def sampleMetadata : QueueMetadata :=
  { targetRig := str "myrig", formula := str "mol-polecat-work",
    args := str "do the thing", vars := str "x=1\ny=2",
    enqueuedAt := str "2026-01-15T10:00:00Z", merge := str "mr",
    convoy := str "hq-cv-abc", baseBranch := str "main", noMerge := true,
    account := str "test-acct", agent := str "codex", hookRawBead := true,
    owned := true, dispatchFailures := 1,
    lastFailure := str "sling failed: rig not found" }

/-- Description whose `dispatch_failures` value is not a number, mirroring
the corrupted-counter unit test. -/
def corruptDesc : Str :=
  str "---gt:queue:v1---\ntarget_rig: rig1\ndispatch_failures: not_a_number\nenqueued_at: 2026-01-15T10:00:00Z"

/-- Raw ready bead carrying the corrupted counter. -/
def corruptRawBead : RawBead :=
  ⟨str "gt-1", str "a bead", corruptDesc, [labelQueued]⟩

/-!
## Helper lemmas: split and join
-/

theorem splitOnChar_ne_nil (c : Char) (s : Str) : splitOnChar c s ≠ [] := by
  induction s with
  | nil => simp [splitOnChar]
  | cons x xs ih =>
    simp only [splitOnChar]
    split
    · simp
    · cases hs : splitOnChar c xs with
      | nil => simp
      | cons h t => simp

theorem not_mem_of_mem_splitOnChar (c : Char) (s l : Str)
    (h : l ∈ splitOnChar c s) : c ∉ l := by
  induction s generalizing l with
  | nil =>
    simp only [splitOnChar, List.mem_singleton] at h
    subst h; simp
  | cons x xs ih =>
    simp only [splitOnChar] at h
    by_cases hx : x = c
    · rw [if_pos hx] at h
      rcases List.mem_cons.mp h with h1 | h1
      · subst h1; simp
      · exact ih l h1
    · rw [if_neg hx] at h
      cases hs : splitOnChar c xs with
      | nil => exact absurd hs (splitOnChar_ne_nil c xs)
      | cons hd tl =>
        rw [hs] at h
        rcases List.mem_cons.mp h with h1 | h1
        · subst h1
          intro hmem
          rcases List.mem_cons.mp hmem with h2 | h2
          · exact hx h2.symm
          · exact ih hd (by rw [hs]; exact List.mem_cons_self hd tl) h2
        · exact ih l (by rw [hs]; exact List.mem_cons_of_mem hd h1)

theorem splitOnChar_of_not_mem (c : Char) (s : Str) (h : c ∉ s) :
    splitOnChar c s = [s] := by
  induction s with
  | nil => rfl
  | cons x xs ih =>
    have hxc : ¬(x = c) := by
      intro hx; subst hx; exact h (List.mem_cons_self x xs)
    simp only [splitOnChar]
    rw [if_neg hxc, ih (fun hx => h (List.mem_cons_of_mem x hx))]

theorem splitOnChar_append_cons (c : Char) (l t : Str) (h : c ∉ l) :
    splitOnChar c (l ++ c :: t) = l :: splitOnChar c t := by
  induction l with
  | nil => simp [splitOnChar]
  | cons x l' ih =>
    have hxc : ¬(x = c) := by
      intro hx; subst hx; exact h (List.mem_cons_self x l')
    show splitOnChar c (x :: (l' ++ c :: t)) = (x :: l') :: splitOnChar c t
    simp only [splitOnChar]
    rw [if_neg hxc, ih (fun hx => h (List.mem_cons_of_mem x hx))]

theorem joinChar_splitOnChar (c : Char) (s : Str) :
    joinChar c (splitOnChar c s) = s := by
  induction s with
  | nil => rfl
  | cons x xs ih =>
    simp only [splitOnChar]
    by_cases hx : x = c
    · rw [if_pos hx]
      cases hs : splitOnChar c xs with
      | nil => exact absurd hs (splitOnChar_ne_nil c xs)
      | cons hd tl =>
        show joinChar c ([] :: hd :: tl) = x :: xs
        rw [joinChar]
        rw [← hs, ih, hx]
        rfl
    · rw [if_neg hx]
      cases hs : splitOnChar c xs with
      | nil => exact absurd hs (splitOnChar_ne_nil c xs)
      | cons hd tl =>
        cases tl with
        | nil =>
          show joinChar c [x :: hd] = x :: xs
          rw [joinChar]
          have : joinChar c [hd] = xs := by rw [← hs, ih]
          rw [joinChar] at this
          rw [this]
        | cons t1 t2 =>
          show joinChar c ((x :: hd) :: t1 :: t2) = x :: xs
          rw [joinChar]
          have : joinChar c (hd :: t1 :: t2) = xs := by rw [← hs, ih]
          rw [joinChar] at this
          rw [List.cons_append, this]

theorem splitOnChar_joinChar (c : Char) (ls : List Str) (hne : ls ≠ [])
    (h : ∀ l ∈ ls, c ∉ l) : splitOnChar c (joinChar c ls) = ls := by
  induction ls with
  | nil => exact absurd rfl hne
  | cons l ls' ih =>
    cases ls' with
    | nil =>
      show splitOnChar c (joinChar c [l]) = [l]
      rw [joinChar]
      exact splitOnChar_of_not_mem c l (h l (List.mem_cons_self l []))
    | cons l2 ls'' =>
      show splitOnChar c (joinChar c (l :: l2 :: ls'')) = l :: l2 :: ls''
      rw [joinChar]
      rw [splitOnChar_append_cons c l _ (h l (List.mem_cons_self l _))]
      rw [ih (by simp) (fun x hx => h x (List.mem_cons_of_mem l hx))]

/-!
## Helper lemmas: substring search
-/

theorem isPrefixList_iff (p l : Str) :
    isPrefixList p l = true ↔ ∃ t, p ++ t = l := by
  induction p generalizing l with
  | nil => simp [isPrefixList]
  | cons a as ih =>
    cases l with
    | nil => simp [isPrefixList]
    | cons b bs =>
      simp only [isPrefixList, Bool.and_eq_true, decide_eq_true_eq, ih,
        List.cons_append, List.cons.injEq]
      constructor
      · rintro ⟨rfl, t, rfl⟩; exact ⟨t, rfl, rfl⟩
      · rintro ⟨t, rfl, rfl⟩; exact ⟨rfl, t, rfl⟩

theorem isPrefixList_nil_iff (p : Str) : isPrefixList p [] = true ↔ p = [] := by
  cases p <;> simp [isPrefixList]

theorem isPrefixList_self_append (p x : Str) : isPrefixList p (p ++ x) = true :=
  (isPrefixList_iff p (p ++ x)).mpr ⟨x, rfl⟩

theorem findSub_self_append (pat x : Str) : findSub pat (pat ++ x) = some ([], x) := by
  cases hpx : pat ++ x with
  | nil =>
    obtain ⟨hp, hx⟩ := List.append_eq_nil.mp hpx
    subst hp; subst hx; rfl
  | cons c r =>
    show (if isPrefixList pat (c :: r) then some (([] : Str), (c :: r).drop pat.length)
          else (findSub pat r).map (fun p => (c :: p.1, p.2))) = some ([], x)
    rw [if_pos (hpx ▸ isPrefixList_self_append pat x), ← hpx, List.drop_left]

theorem findSub_mid (k v : Str) (h : ':' ∉ k) :
    findSub colonSpace (k ++ colonSpace ++ v) = some (k, v) := by
  induction k with
  | nil =>
    show findSub colonSpace (colonSpace ++ v) = some ([], v)
    exact findSub_self_append colonSpace v
  | cons a k' ih =>
    have hac : ¬(a = ':') := by
      intro ha
      rw [ha] at h
      exact h (List.mem_cons_self ':' k')
    show findSub colonSpace (a :: (k' ++ colonSpace ++ v)) = some (a :: k', v)
    show (if isPrefixList colonSpace (a :: (k' ++ colonSpace ++ v)) then
            some (([] : Str), (a :: (k' ++ colonSpace ++ v)).drop colonSpace.length)
          else (findSub colonSpace (k' ++ colonSpace ++ v)).map
            (fun p => (a :: p.1, p.2))) = some (a :: k', v)
    have hdec : decide (':' = a) = false := by
      simp only [decide_eq_false_iff_not]
      exact fun h' => hac h'.symm
    have hpre : isPrefixList colonSpace (a :: (k' ++ colonSpace ++ v)) = false := by
      simp [colonSpace, str, isPrefixList, hdec]
    rw [hpre]
    rw [ih (fun hx => h (List.mem_cons_of_mem a hx))]
    rfl

theorem findSub_none_iff (pat s : Str) (hp : pat ≠ []) :
    findSub pat s = none ↔ ∀ i, isPrefixList pat (s.drop i) = false := by
  induction s with
  | nil =>
    simp only [findSub, List.drop_nil]
    rw [if_neg (fun hpre => hp ((isPrefixList_nil_iff pat).mp hpre))]
    simp only [true_iff]
    intro i
    exact Bool.not_eq_true _ |>.mp (fun hpre => hp ((isPrefixList_nil_iff pat).mp hpre))
  | cons c r ih =>
    show (if isPrefixList pat (c :: r) then some (([] : Str), (c :: r).drop pat.length)
          else (findSub pat r).map (fun p => (c :: p.1, p.2))) = none ↔ _
    by_cases hpre : isPrefixList pat (c :: r) = true
    · rw [if_pos hpre]
      constructor
      · intro hcontra
        exact absurd hcontra (Option.some_ne_none _)
      · intro hall
        have h0 := hall 0
        rw [List.drop_zero, hpre] at h0
        exact absurd h0 (by decide)
    · rw [if_neg hpre]
      simp only [Option.map_eq_none', ih]
      constructor
      · intro hall i
        cases i with
        | zero =>
          simp only [List.drop_zero]
          exact Bool.not_eq_true _ |>.mp hpre
        | succ j => exact hall j
      · intro hall i
        have := hall (i + 1)
        simpa using this

theorem findSub_decomp (pat s b a : Str) (h : findSub pat s = some (b, a)) :
    s = b ++ pat ++ a := by
  induction s generalizing b with
  | nil =>
    simp only [findSub] at h
    split at h
    · next hpre =>
      have hp := (isPrefixList_nil_iff pat).mp hpre
      simp only [Option.some.injEq, Prod.mk.injEq] at h
      obtain ⟨rfl, rfl⟩ := h
      simp [hp]
    · exact absurd h (by simp)
  | cons c r ih =>
    rw [show findSub pat (c :: r) =
        (if isPrefixList pat (c :: r) then some (([] : Str), (c :: r).drop pat.length)
         else (findSub pat r).map (fun p => (c :: p.1, p.2))) from rfl] at h
    split at h
    · next hpre =>
      obtain ⟨t, ht⟩ := (isPrefixList_iff pat (c :: r)).mp hpre
      simp only [Option.some.injEq, Prod.mk.injEq] at h
      obtain ⟨rfl, rfl⟩ := h
      rw [← ht, List.drop_left]
      simp
    · next hpre =>
      cases hfr : findSub pat r with
      | none => rw [hfr] at h; exact Option.noConfusion h
      | some p =>
        rw [hfr] at h
        simp only [Option.map_some', Option.some.injEq] at h
        obtain ⟨p1, p2⟩ := p
        simp only [Prod.mk.injEq] at h
        obtain ⟨hb, rfl⟩ := h
        subst hb
        have := ih p1 hfr
        simp [this]

theorem findSub_before_none (pat s b a : Str) (hp : pat ≠ [])
    (h : findSub pat s = some (b, a)) : findSub pat b = none := by
  induction s generalizing b with
  | nil =>
    simp only [findSub] at h
    split at h
    · next hpre => exact absurd ((isPrefixList_nil_iff pat).mp hpre) hp
    · exact absurd h (by simp)
  | cons c r ih =>
    rw [show findSub pat (c :: r) =
        (if isPrefixList pat (c :: r) then some (([] : Str), (c :: r).drop pat.length)
         else (findSub pat r).map (fun p => (c :: p.1, p.2))) from rfl] at h
    split at h
    · next hpre =>
      simp only [Option.some.injEq, Prod.mk.injEq] at h
      obtain ⟨rfl, rfl⟩ := h
      cases pat with
      | nil => exact absurd rfl hp
      | cons pc pr => rfl
    · next hpre =>
      cases hfr : findSub pat r with
      | none => rw [hfr] at h; exact Option.noConfusion h
      | some p =>
        rw [hfr] at h
        simp only [Option.map_some', Option.some.injEq] at h
        obtain ⟨p1, p2⟩ := p
        simp only [Prod.mk.injEq] at h
        obtain ⟨hb, rfl⟩ := h
        subst hb
        have hnone := ih p1 hfr
        have hdec := findSub_decomp pat r p1 p2 hfr
        show (if isPrefixList pat (c :: p1) then some (([] : Str), (c :: p1).drop pat.length)
              else (findSub pat p1).map (fun p => (c :: p.1, p.2))) = none
      -- a prefix occurrence at the head of `c :: p1` would extend to `c :: r`
        have hpre2 : isPrefixList pat (c :: p1) = false := by
          rw [Bool.eq_false_iff]
          intro hpre2
          obtain ⟨t, ht⟩ := (isPrefixList_iff pat (c :: p1)).mp hpre2
          apply hpre
          apply (isPrefixList_iff pat (c :: r)).mpr
          refine ⟨t ++ pat ++ p2, ?_⟩
          rw [hdec]
          have hassoc : pat ++ (t ++ pat ++ p2) = (pat ++ t) ++ pat ++ p2 := by
            simp [List.append_assoc]
          rw [hassoc, ht]
          simp [List.append_assoc]
        rw [hpre2, hnone]
        rfl

theorem isPrefixList_extend (p l u : Str) (h : isPrefixList p l = true) :
    isPrefixList p (l ++ u) = true := by
  obtain ⟨t, ht⟩ := (isPrefixList_iff p l).mp h
  exact (isPrefixList_iff p (l ++ u)).mpr ⟨t ++ u, by rw [← ht]; simp⟩

theorem findSub_none_of_append (pat x u : Str) (hp : pat ≠ [])
    (h : findSub pat (x ++ u) = none) : findSub pat x = none := by
  rw [findSub_none_iff pat _ hp] at h ⊢
  intro i
  by_cases hi : i ≤ x.length
  · rw [Bool.eq_false_iff]
    intro hpre
    have := isPrefixList_extend pat (x.drop i) u hpre
    rw [← List.drop_append_of_le_length hi] at this
    have hfalse := h i
    rw [this] at hfalse
    exact absurd hfalse (by decide)
  · rw [List.drop_eq_nil_of_le (by omega)]
    rw [Bool.eq_false_iff]
    intro hpre
    exact hp ((isPrefixList_nil_iff pat).mp hpre)

/-!
## Helper lemmas: trimming
-/

theorem trimRightSpace_eq_rdrop (l : Str) :
    trimRightSpace l = l.rdropWhile goIsSpace := rfl

theorem dropWhile_eq_self_of_all (p : Char → Bool) (l : Str)
    (h : ∀ c ∈ l, p c = false) : l.dropWhile p = l := by
  cases l with
  | nil => rfl
  | cons c t =>
    rw [List.dropWhile_cons, if_neg (by simp [h c (List.mem_cons_self c t)])]

theorem trimSpace_eq_self_of_all (l : Str) (h : ∀ c ∈ l, goIsSpace c = false) :
    trimSpace l = l := by
  unfold trimSpace trimLeftSpace trimRightSpace
  rw [dropWhile_eq_self_of_all goIsSpace l h]
  rw [dropWhile_eq_self_of_all goIsSpace l.reverse
    (fun c hc => h c (List.mem_reverse.mp hc))]
  exact List.reverse_reverse l

theorem exists_append_singleton (l : Str) (h : l ≠ []) :
    ∃ t c, l = t ++ [c] := by
  obtain ⟨c, t, h2⟩ := List.exists_cons_of_ne_nil (List.reverse_ne_nil_iff.mpr h)
  exact ⟨t.reverse, c, by simpa using congrArg List.reverse h2⟩

theorem trimSpace_fix_parts (l : Str) (h : trimSpace l = l) :
    trimLeftSpace l = l ∧ trimRightSpace l = l := by
  have hsuf : trimLeftSpace l <:+ l := List.dropWhile_suffix _
  have h2 : (trimSpace l).length ≤ (trimLeftSpace l).length := by
    have hpre : trimRightSpace (trimLeftSpace l) <+: trimLeftSpace l := by
      rw [trimRightSpace_eq_rdrop]
      exact List.rdropWhile_prefix _ _
    exact hpre.length_le
  have h1 : (trimLeftSpace l).length ≤ l.length := hsuf.length_le
  have hlen := congrArg List.length h
  have hll : trimLeftSpace l = l := by
    apply hsuf.sublist.eq_of_length
    omega
  refine ⟨hll, ?_⟩
  have hts : trimSpace l = trimRightSpace l := by unfold trimSpace; rw [hll]
  rw [← hts]
  exact h

theorem trimLeft_fix_head (c : Char) (t : Str)
    (h : trimLeftSpace (c :: t) = c :: t) : goIsSpace c = false := by
  by_cases hc : goIsSpace c = true
  · exfalso
    unfold trimLeftSpace at h
    rw [List.dropWhile_cons, if_pos hc] at h
    have hle : (t.dropWhile goIsSpace).length ≤ t.length :=
      (List.dropWhile_suffix _).length_le
    have hlen := congrArg List.length h
    simp at hlen
    omega
  · exact Bool.eq_false_iff.mpr hc

theorem trimRight_fix_last (t : Str) (d : Char)
    (h : trimRightSpace (t ++ [d]) = t ++ [d]) : goIsSpace d = false := by
  rw [trimRightSpace_eq_rdrop] at h
  have hlast := List.rdropWhile_eq_self_iff.mp h (by simp)
  rw [List.getLast_append] at hlast
  exact Bool.eq_false_iff.mpr hlast

theorem trimSpace_of_ends (c d : Char) (t : Str)
    (hc : goIsSpace c = false) (hd : goIsSpace d = false) :
    trimSpace (c :: (t ++ [d])) = c :: (t ++ [d]) := by
  unfold trimSpace
  have h1 : trimLeftSpace (c :: (t ++ [d])) = c :: (t ++ [d]) := by
    unfold trimLeftSpace
    rw [List.dropWhile_cons, if_neg (by simp [hc])]
  rw [h1, trimRightSpace_eq_rdrop]
  show List.rdropWhile goIsSpace ((c :: t) ++ [d]) = c :: (t ++ [d])
  rw [List.rdropWhile_concat_neg goIsSpace (c :: t) d (by simp [hd])]
  rfl

/-!
## Helper lemmas: decimal digits
-/

theorem digitChar10_facts (d : Nat) (h : d < 10) :
    isDigitChar (digitChar10 d) = true ∧ goIsSpace (digitChar10 d) = false ∧
    digitChar10 d ≠ '\n' ∧ digitChar10 d ≠ '+' ∧ digitChar10 d ≠ '-' ∧
    digitChar10 d ≠ ':' ∧ (digitChar10 d).toNat - 48 = d := by
  interval_cases d <;> exact ⟨by decide, by decide, by decide, by decide,
    by decide, by decide, by decide⟩

theorem natToStrAux_chars (fuel n : Nat) :
    ∀ c ∈ natToStrAux fuel n, ∃ d, d < 10 ∧ c = digitChar10 d := by
  induction fuel generalizing n with
  | zero => intro c hc; exact absurd hc (by simp [natToStrAux])
  | succ fuel ih =>
    intro c hc
    simp only [natToStrAux] at hc
    split at hc
    · next hn =>
      rw [List.mem_singleton] at hc
      exact ⟨n, hn, hc⟩
    · rcases List.mem_append.mp hc with h1 | h1
      · exact ih (n / 10) c h1
      · rw [List.mem_singleton] at h1
        exact ⟨n % 10, Nat.mod_lt n (by omega), h1⟩

theorem natToStrAux_ne_nil (fuel n : Nat) (h : 0 < fuel) :
    natToStrAux fuel n ≠ [] := by
  cases fuel with
  | zero => omega
  | succ fuel =>
    simp only [natToStrAux]
    split
    · simp
    · simp

theorem digitsValAux_append (l₁ l₂ : Str) (acc : Nat) :
    digitsValAux acc (l₁ ++ l₂)
      = (digitsValAux acc l₁).bind (fun a => digitsValAux a l₂) := by
  induction l₁ generalizing acc with
  | nil => rfl
  | cons c cs ih =>
    simp only [List.cons_append, digitsValAux]
    split
    · exact ih _
    · rfl

theorem digitsValAux_natToStrAux (n : Nat) :
    ∀ fuel acc, n < fuel →
      digitsValAux acc (natToStrAux fuel n)
        = some (acc * 10 ^ (natToStrAux fuel n).length + n) := by
  induction n using Nat.strong_induction_on with
  | _ n ih =>
    intro fuel acc hfuel
    cases fuel with
    | zero => omega
    | succ fuel =>
      simp only [natToStrAux]
      by_cases hn : n < 10
      · rw [if_pos hn]
        obtain ⟨hdig, _, _, _, _, _, hval⟩ := digitChar10_facts n hn
        simp only [digitsValAux, if_pos hdig, hval, List.length_singleton,
          pow_one]
      · rw [if_neg hn]
        have hlt : n / 10 < n := Nat.div_lt_self (by omega) (by omega)
        have hfu : n / 10 < fuel := by omega
        rw [digitsValAux_append]
        rw [ih (n / 10) hlt fuel acc hfu]
        obtain ⟨hdig, _, _, _, _, _, hval⟩ := digitChar10_facts (n % 10)
          (Nat.mod_lt n (by omega))
        simp only [Option.some_bind, digitsValAux, if_pos hdig, hval,
          List.length_append, List.length_singleton]
        congr 1
        rw [pow_succ]
        generalize (10 : Nat) ^ (natToStrAux fuel (n / 10)).length = K
        have hmul : acc * (K * 10) = acc * K * 10 := by ring
        rw [hmul]
        generalize acc * K = A
        omega

theorem digitsVal_natToStr (n : Nat) : digitsVal (natToStr n) = some n := by
  unfold natToStr
  cases hs : natToStrAux (n + 1) n with
  | nil => exact absurd hs (natToStrAux_ne_nil (n + 1) n (by omega))
  | cons c cs =>
    show digitsValAux 0 (c :: cs) = some n
    rw [← hs, digitsValAux_natToStrAux n (n + 1) 0 (by omega)]
    simp

theorem goAtoi_natToStr (n : Nat) (h : (n : Int) ≤ int64Max) :
    goAtoi (natToStr n) = some (n : Int) := by
  cases hs : natToStr n with
  | nil => exact absurd hs (natToStrAux_ne_nil (n + 1) n (by omega))
  | cons c cs =>
    obtain ⟨d, hd, hcd⟩ := natToStrAux_chars (n + 1) n c (by rw [← natToStr, hs]; exact List.mem_cons_self c cs)
    obtain ⟨_, _, _, hplus, hminus, _, _⟩ := digitChar10_facts d hd
    show goAtoi (c :: cs) = some (n : Int)
    show (if c = '+' then
            (digitsVal cs).bind fun m =>
              if (m : Int) ≤ int64Max then some (m : Int) else none
          else if c = '-' then
            (digitsVal cs).bind fun m =>
              if (m : Int) ≤ int64Max + 1 then some (-(m : Int)) else none
          else
            (digitsVal (c :: cs)).bind fun m =>
              if (m : Int) ≤ int64Max then some (m : Int) else none)
        = some (n : Int)
    rw [if_neg (by rw [hcd]; exact hplus), if_neg (by rw [hcd]; exact hminus)]
    rw [show (c :: cs) = natToStr n from hs.symm]
    rw [digitsVal_natToStr]
    simp [h]

/-!
## Helper lemmas: the parse loop
-/

theorem applyLine_targetRig (v : Str) (acc : ParseAcc) :
    applyLine (str "target_rig") v acc
      = { acc with m := { acc.m with targetRig := v } } := rfl

theorem applyLine_formula (v : Str) (acc : ParseAcc) :
    applyLine (str "formula") v acc
      = { acc with m := { acc.m with formula := v } } := rfl

theorem applyLine_args (v : Str) (acc : ParseAcc) :
    applyLine (str "args") v acc
      = { acc with m := { acc.m with args := v } } := rfl

theorem applyLine_var (v : Str) (acc : ParseAcc) :
    applyLine (str "var") v acc
      = { acc with varLines := acc.varLines ++ [v] } := rfl

theorem applyLine_enqueuedAt (v : Str) (acc : ParseAcc) :
    applyLine (str "enqueued_at") v acc
      = { acc with m := { acc.m with enqueuedAt := v } } := rfl

theorem applyLine_merge (v : Str) (acc : ParseAcc) :
    applyLine (str "merge") v acc
      = { acc with m := { acc.m with merge := v } } := rfl

theorem applyLine_convoy (v : Str) (acc : ParseAcc) :
    applyLine (str "convoy") v acc
      = { acc with m := { acc.m with convoy := v } } := rfl

theorem applyLine_baseBranch (v : Str) (acc : ParseAcc) :
    applyLine (str "base_branch") v acc
      = { acc with m := { acc.m with baseBranch := v } } := rfl

theorem applyLine_noMerge (v : Str) (acc : ParseAcc) :
    applyLine (str "no_merge") v acc
      = { acc with m := { acc.m with noMerge := decide (v = str "true") } } := rfl

theorem applyLine_account (v : Str) (acc : ParseAcc) :
    applyLine (str "account") v acc
      = { acc with m := { acc.m with account := v } } := rfl

theorem applyLine_agent (v : Str) (acc : ParseAcc) :
    applyLine (str "agent") v acc
      = { acc with m := { acc.m with agent := v } } := rfl

theorem applyLine_hookRawBead (v : Str) (acc : ParseAcc) :
    applyLine (str "hook_raw_bead") v acc
      = { acc with m := { acc.m with hookRawBead := decide (v = str "true") } } := rfl

theorem applyLine_owned (v : Str) (acc : ParseAcc) :
    applyLine (str "owned") v acc
      = { acc with m := { acc.m with owned := decide (v = str "true") } } := rfl

theorem applyLine_dispatchFailures (v : Str) (acc : ParseAcc) :
    applyLine (str "dispatch_failures") v acc
      = match goAtoi v with
        | some n => { acc with m := { acc.m with dispatchFailures := n } }
        | none => acc := rfl

theorem applyLine_lastFailure (v : Str) (acc : ParseAcc) :
    applyLine (str "last_failure") v acc
      = { acc with m := { acc.m with lastFailure := v } } := rfl

theorem parseLines_blank (rest : List Str) (acc : ParseAcc) :
    parseLines ([] :: rest) acc = parseLines rest acc := rfl

theorem parseLines_nil (acc : ParseAcc) : parseLines [] acc = acc := rfl

theorem parseLines_kv (k v : Str) (rest : List Str) (acc : ParseAcc)
    (hk1 : k ≠ []) (hk2 : ':' ∉ k) (hk3 : ∀ c ∈ k, goIsSpace c = false)
    (hv1 : trimSpace v = v) (hv2 : v ≠ []) :
    parseLines ((k ++ colonSpace ++ v) :: rest) acc
      = parseLines rest (applyLine k v acc) := by
  obtain ⟨kc, kt, rfl⟩ := List.exists_cons_of_ne_nil hk1
  obtain ⟨vt, vc, rfl⟩ := exists_append_singleton v hv2
  have hvc : goIsSpace vc = false :=
    trimRight_fix_last vt vc (trimSpace_fix_parts _ hv1).2
  have hline : (kc :: kt) ++ colonSpace ++ (vt ++ [vc])
      = kc :: ((kt ++ colonSpace ++ vt) ++ [vc]) := by
    simp [List.append_assoc]
  have htrim : trimSpace ((kc :: kt) ++ colonSpace ++ (vt ++ [vc]))
      = (kc :: kt) ++ colonSpace ++ (vt ++ [vc]) := by
    rw [hline]
    exact trimSpace_of_ends kc vc _ (hk3 kc (List.mem_cons_self kc kt)) hvc
  have hsplit : goSplitN2 colonSpace ((kc :: kt) ++ colonSpace ++ (vt ++ [vc]))
      = [kc :: kt, vt ++ [vc]] := by
    unfold goSplitN2
    rw [findSub_mid (kc :: kt) (vt ++ [vc]) hk2]
  have hne_delim : (kc :: kt) ++ colonSpace ++ (vt ++ [vc]) ≠ delimStr := by
    intro heq
    have h1 := findSub_mid (kc :: kt) (vt ++ [vc]) hk2
    rw [heq] at h1
    have h2 : findSub colonSpace delimStr = none := by decide
    rw [h2] at h1
    exact Option.noConfusion h1
  have hemp : ((kc :: kt) ++ colonSpace ++ (vt ++ [vc])).isEmpty = false := by
    rw [hline]; rfl
  simp only [parseLines]
  rw [htrim, hemp]
  rw [if_neg (by simp)]
  rw [if_neg hne_delim]
  rw [hsplit]
  show parseLines rest
      (applyLine (trimSpace (kc :: kt)) (trimSpace (vt ++ [vc])) acc)
    = parseLines rest (applyLine (kc :: kt) (vt ++ [vc]) acc)
  rw [trimSpace_eq_self_of_all (kc :: kt) hk3, hv1]

theorem parseLines_pairs (ps : List (Str × Str)) (rest : List Str) (acc : ParseAcc)
    (h : ∀ p ∈ ps, PairClean p) :
    parseLines (ps.map renderKV ++ rest) acc
      = parseLines rest (ps.foldl (fun a p => applyLine p.1 p.2 a) acc) := by
  induction ps generalizing acc with
  | nil => rfl
  | cons p ps' ih =>
    obtain ⟨hk1, hk2, hk3, hv1, hv2, hv3⟩ := h p (List.mem_cons_self p ps')
    show parseLines ((p.1 ++ colonSpace ++ p.2) :: (ps'.map renderKV ++ rest)) acc = _
    rw [parseLines_kv p.1 p.2 _ acc hk1 hk2 hk3 hv1 hv2]
    rw [ih (applyLine p.1 p.2 acc) (fun q hq => h q (List.mem_cons_of_mem p hq))]
    rfl

theorem renderKV_no_newline (p : Str × Str) (h : PairClean p) :
    ('\n' : Char) ∉ renderKV p := by
  obtain ⟨_, _, hk3, _, _, hv3⟩ := h
  unfold renderKV
  intro hmem
  rcases List.mem_append.mp hmem with h1 | h1
  · rcases List.mem_append.mp h1 with h2 | h2
    · have := hk3 '\n' h2
      simp [goIsSpace] at this
    · simp [colonSpace, str] at h2
  · exact hv3 h1

theorem format_decomp (bs : List Str) (h : ∀ l ∈ bs, ('\n' : Char) ∉ l) :
    ∃ sect, findSub delimStr (joinChar '\n' (delimStr :: bs)) = some ([], sect) ∧
      splitOnChar '\n' sect = [] :: bs := by
  cases bs with
  | nil =>
    refine ⟨[], ?_, rfl⟩
    show findSub delimStr (joinChar '\n' [delimStr]) = some ([], [])
    rw [show joinChar '\n' [delimStr] = delimStr ++ [] from by simp [joinChar]]
    exact findSub_self_append delimStr []
  | cons b bs' =>
    refine ⟨'\n' :: joinChar '\n' (b :: bs'), ?_, ?_⟩
    · show findSub delimStr (joinChar '\n' (delimStr :: b :: bs')) = _
      rw [show joinChar '\n' (delimStr :: b :: bs')
          = delimStr ++ ('\n' :: joinChar '\n' (b :: bs')) from rfl]
      exact findSub_self_append delimStr _
    · show splitOnChar '\n' ('\n' :: joinChar '\n' (b :: bs')) = [] :: b :: bs'
      rw [show splitOnChar '\n' ('\n' :: joinChar '\n' (b :: bs'))
          = [] :: splitOnChar '\n' (joinChar '\n' (b :: bs')) from by
        simp [splitOnChar]]
      rw [splitOnChar_joinChar '\n' (b :: bs') (by simp) h]

theorem mem_ite_nil_left {α : Type} {c : Prop} [Decidable c] {x p : α}
    (h : p ∈ (if c then ([] : List α) else [x])) : ¬c ∧ p = x := by
  by_cases hc : c
  · rw [if_pos hc] at h; exact absurd h (List.not_mem_nil p)
  · rw [if_neg hc] at h; exact ⟨hc, List.mem_singleton.mp h⟩

theorem mem_ite_nil_right {α : Type} {c : Prop} [Decidable c] {x p : α}
    (h : p ∈ (if c then [x] else ([] : List α))) : c ∧ p = x := by
  by_cases hc : c
  · rw [if_pos hc] at h; exact ⟨hc, List.mem_singleton.mp h⟩
  · rw [if_neg hc] at h; exact absurd h (List.not_mem_nil p)

theorem ite_isEmpty_self (t : Str) : (if t.isEmpty = true then [] else t) = t := by
  cases t <;> rfl

theorem foldl_seg_targetRig (t : Str) (acc : ParseAcc) :
    List.foldl (fun a p => applyLine p.1 p.2 a) acc
      (if t.isEmpty then [] else [(str "target_rig", t)])
      = { acc with m := { acc.m with
          targetRig := if t.isEmpty then acc.m.targetRig else t } } := by
  by_cases h : t.isEmpty
  · rw [if_pos h, if_pos h]; rfl
  · rw [if_neg h, if_neg h]
    exact applyLine_targetRig t acc

theorem foldl_seg_formula (t : Str) (acc : ParseAcc) :
    List.foldl (fun a p => applyLine p.1 p.2 a) acc
      (if t.isEmpty then [] else [(str "formula", t)])
      = { acc with m := { acc.m with
          formula := if t.isEmpty then acc.m.formula else t } } := by
  by_cases h : t.isEmpty
  · rw [if_pos h, if_pos h]; rfl
  · rw [if_neg h, if_neg h]
    exact applyLine_formula t acc

theorem foldl_seg_args (t : Str) (acc : ParseAcc) :
    List.foldl (fun a p => applyLine p.1 p.2 a) acc
      (if t.isEmpty then [] else [(str "args", t)])
      = { acc with m := { acc.m with
          args := if t.isEmpty then acc.m.args else t } } := by
  by_cases h : t.isEmpty
  · rw [if_pos h, if_pos h]; rfl
  · rw [if_neg h, if_neg h]
    exact applyLine_args t acc

theorem foldl_seg_enqueuedAt (t : Str) (acc : ParseAcc) :
    List.foldl (fun a p => applyLine p.1 p.2 a) acc
      (if t.isEmpty then [] else [(str "enqueued_at", t)])
      = { acc with m := { acc.m with
          enqueuedAt := if t.isEmpty then acc.m.enqueuedAt else t } } := by
  by_cases h : t.isEmpty
  · rw [if_pos h, if_pos h]; rfl
  · rw [if_neg h, if_neg h]
    exact applyLine_enqueuedAt t acc

theorem foldl_seg_merge (t : Str) (acc : ParseAcc) :
    List.foldl (fun a p => applyLine p.1 p.2 a) acc
      (if t.isEmpty then [] else [(str "merge", t)])
      = { acc with m := { acc.m with
          merge := if t.isEmpty then acc.m.merge else t } } := by
  by_cases h : t.isEmpty
  · rw [if_pos h, if_pos h]; rfl
  · rw [if_neg h, if_neg h]
    exact applyLine_merge t acc

theorem foldl_seg_convoy (t : Str) (acc : ParseAcc) :
    List.foldl (fun a p => applyLine p.1 p.2 a) acc
      (if t.isEmpty then [] else [(str "convoy", t)])
      = { acc with m := { acc.m with
          convoy := if t.isEmpty then acc.m.convoy else t } } := by
  by_cases h : t.isEmpty
  · rw [if_pos h, if_pos h]; rfl
  · rw [if_neg h, if_neg h]
    exact applyLine_convoy t acc

theorem foldl_seg_baseBranch (t : Str) (acc : ParseAcc) :
    List.foldl (fun a p => applyLine p.1 p.2 a) acc
      (if t.isEmpty then [] else [(str "base_branch", t)])
      = { acc with m := { acc.m with
          baseBranch := if t.isEmpty then acc.m.baseBranch else t } } := by
  by_cases h : t.isEmpty
  · rw [if_pos h, if_pos h]; rfl
  · rw [if_neg h, if_neg h]
    exact applyLine_baseBranch t acc

theorem foldl_seg_account (t : Str) (acc : ParseAcc) :
    List.foldl (fun a p => applyLine p.1 p.2 a) acc
      (if t.isEmpty then [] else [(str "account", t)])
      = { acc with m := { acc.m with
          account := if t.isEmpty then acc.m.account else t } } := by
  by_cases h : t.isEmpty
  · rw [if_pos h, if_pos h]; rfl
  · rw [if_neg h, if_neg h]
    exact applyLine_account t acc

theorem foldl_seg_agent (t : Str) (acc : ParseAcc) :
    List.foldl (fun a p => applyLine p.1 p.2 a) acc
      (if t.isEmpty then [] else [(str "agent", t)])
      = { acc with m := { acc.m with
          agent := if t.isEmpty then acc.m.agent else t } } := by
  by_cases h : t.isEmpty
  · rw [if_pos h, if_pos h]; rfl
  · rw [if_neg h, if_neg h]
    exact applyLine_agent t acc

theorem foldl_seg_lastFailure (t : Str) (acc : ParseAcc) :
    List.foldl (fun a p => applyLine p.1 p.2 a) acc
      (if t.isEmpty then [] else [(str "last_failure", t)])
      = { acc with m := { acc.m with
          lastFailure := if t.isEmpty then acc.m.lastFailure else t } } := by
  by_cases h : t.isEmpty
  · rw [if_pos h, if_pos h]; rfl
  · rw [if_neg h, if_neg h]
    exact applyLine_lastFailure t acc

theorem foldl_seg_noMerge (b : Bool) (acc : ParseAcc) :
    List.foldl (fun a p => applyLine p.1 p.2 a) acc
      (if b then [(str "no_merge", str "true")] else [])
      = { acc with m := { acc.m with
          noMerge := if b then true else acc.m.noMerge } } := by
  cases b
  · rfl
  · show applyLine (str "no_merge") (str "true") acc = _
    rw [applyLine_noMerge]
    rw [show decide (str "true" = str "true") = true from by decide]
    rfl

theorem foldl_seg_hookRawBead (b : Bool) (acc : ParseAcc) :
    List.foldl (fun a p => applyLine p.1 p.2 a) acc
      (if b then [(str "hook_raw_bead", str "true")] else [])
      = { acc with m := { acc.m with
          hookRawBead := if b then true else acc.m.hookRawBead } } := by
  cases b
  · rfl
  · show applyLine (str "hook_raw_bead") (str "true") acc = _
    rw [applyLine_hookRawBead]
    rw [show decide (str "true" = str "true") = true from by decide]
    rfl

theorem foldl_seg_owned (b : Bool) (acc : ParseAcc) :
    List.foldl (fun a p => applyLine p.1 p.2 a) acc
      (if b then [(str "owned", str "true")] else [])
      = { acc with m := { acc.m with
          owned := if b then true else acc.m.owned } } := by
  cases b
  · rfl
  · show applyLine (str "owned") (str "true") acc = _
    rw [applyLine_owned]
    rw [show decide (str "true" = str "true") = true from by decide]
    rfl

theorem foldl_seg_dispatchFailures (df : Int) (acc : ParseAcc)
    (h0 : 0 ≤ df) (h1 : df ≤ int64Max) :
    List.foldl (fun a p => applyLine p.1 p.2 a) acc
      (if 0 < df then [(str "dispatch_failures", goItoa df)] else [])
      = { acc with m := { acc.m with
          dispatchFailures := if 0 < df then df else acc.m.dispatchFailures } } := by
  by_cases h : 0 < df
  · rw [if_pos h, if_pos h]
    show applyLine (str "dispatch_failures") (goItoa df) acc = _
    rw [applyLine_dispatchFailures]
    have hi : goItoa df = natToStr df.toNat := by
      unfold goItoa
      rw [if_neg (by omega)]
    rw [hi, goAtoi_natToStr df.toNat (by omega)]
    show { acc with m := { acc.m with dispatchFailures := (df.toNat : Int) } } = _
    rw [show ((df.toNat : Int)) = df from by omega]
  · rw [if_neg h, if_neg h]; rfl

theorem filterMap_vars_clean (lines : List Str)
    (h : ∀ l ∈ lines, trimSpace l = l ∧ l ≠ []) :
    (lines.filterMap fun v =>
        let v' := trimSpace v
        if v'.isEmpty then none else some (str "var", v'))
      = lines.map (fun l => (str "var", l)) := by
  induction lines with
  | nil => rfl
  | cons l ls ih =>
    obtain ⟨ht, hne⟩ := h l (List.mem_cons_self l ls)
    have hf : (let v' := trimSpace l
               if v'.isEmpty then none else some ((str "var", v') : Str × Str))
        = some (str "var", l) := by
      simp only [ht]
      rw [if_neg (by simp [hne])]
    rw [List.filterMap_cons, hf, List.map_cons,
      ih (fun x hx => h x (List.mem_cons_of_mem l hx))]

theorem foldl_vars_map (lines : List Str) (acc : ParseAcc) :
    List.foldl (fun a p => applyLine p.1 p.2 a) acc
        (lines.map fun l => (str "var", l))
      = { acc with varLines := acc.varLines ++ lines } := by
  induction lines generalizing acc with
  | nil => simp
  | cons l ls ih =>
    simp only [List.map_cons, List.foldl_cons]
    rw [show applyLine (str "var") l acc
        = { acc with varLines := acc.varLines ++ [l] } from applyLine_var l acc]
    rw [ih]
    simp [List.append_assoc]

theorem foldl_seg_vars (vs : Str) (acc : ParseAcc) (h : cleanVars vs) :
    List.foldl (fun a p => applyLine p.1 p.2 a) acc
      ((splitOnChar '\n' vs).filterMap fun v =>
          let v' := trimSpace v
          if v'.isEmpty then none else some (str "var", v'))
      = { acc with varLines :=
          acc.varLines ++ (if vs = [] then [] else splitOnChar '\n' vs) } := by
  rcases h with h | h
  · subst h
    rw [if_pos rfl, List.append_nil]
    rfl
  · have hne : vs ≠ [] := by
      intro hvs; subst hvs
      exact (h [] (by simp [splitOnChar])).2 rfl
    rw [filterMap_vars_clean _ h, foldl_vars_map, if_neg hne]

theorem digits_value_clean (n : Nat) :
    trimSpace (natToStr n) = natToStr n ∧ natToStr n ≠ [] ∧
    ('\n' : Char) ∉ natToStr n := by
  refine ⟨?_, natToStrAux_ne_nil (n + 1) n (by omega), ?_⟩
  · apply trimSpace_eq_self_of_all
    intro c hc
    obtain ⟨d, hd, rfl⟩ := natToStrAux_chars (n + 1) n c hc
    exact (digitChar10_facts d hd).2.1
  · intro hc
    obtain ⟨d, hd, hdc⟩ := natToStrAux_chars (n + 1) n '\n' hc
    exact (digitChar10_facts d hd).2.2.1 hdc.symm

theorem pairClean_mk (k v : Str) (hk1 : k ≠ []) (hk2 : ':' ∉ k)
    (hk3 : ∀ c ∈ k, goIsSpace c = false) (hv1 : trimSpace v = v)
    (hv2 : v ≠ []) (hv3 : ('\n' : Char) ∉ v) : PairClean (k, v) :=
  ⟨hk1, hk2, hk3, hv1, hv2, hv3⟩

theorem formatPairs_clean (m : QueueMetadata) (h : CleanMetadata m) :
    ∀ p ∈ formatPairs m, PairClean p := by
  obtain ⟨h1, h2, h3, h4, h5, h6, h7, h8, h9, h10, hv, hd0, hd1⟩ := h
  intro p hp
  unfold formatPairs at hp
  simp only [List.mem_append, or_assoc] at hp
  rcases hp with hp | hp | hp | hp | hp | hp | hp | hp | hp | hp | hp | hp | hp | hp | hp
  · obtain ⟨hne, rfl⟩ := mem_ite_nil_left hp
    exact pairClean_mk _ _ (by decide) (by decide) (by decide) h1.1
      (fun he => hne (by rw [he]; rfl)) h1.2
  · obtain ⟨hne, rfl⟩ := mem_ite_nil_left hp
    exact pairClean_mk _ _ (by decide) (by decide) (by decide) h2.1
      (fun he => hne (by rw [he]; rfl)) h2.2
  · obtain ⟨hne, rfl⟩ := mem_ite_nil_left hp
    exact pairClean_mk _ _ (by decide) (by decide) (by decide) h3.1
      (fun he => hne (by rw [he]; rfl)) h3.2
  · rw [List.mem_filterMap] at hp
    obtain ⟨a, ha, hfa⟩ := hp
    rcases hv with hv | hv
    · rw [hv] at ha
      simp only [splitOnChar, List.mem_singleton] at ha
      subst ha
      exact Option.noConfusion hfa
    · obtain ⟨ht, hne⟩ := hv a ha
      rw [show (let v' := trimSpace a
            if v'.isEmpty then none else some ((str "var", v') : Str × Str))
          = some (str "var", a) from by
        simp only [ht]; rw [if_neg (by simp [hne])]] at hfa
      obtain rfl := Option.some.injEq _ _ |>.mp hfa |>.symm
      exact pairClean_mk _ _ (by decide) (by decide) (by decide) ht hne
        (not_mem_of_mem_splitOnChar '\n' m.vars a ha)
  · obtain ⟨hne, rfl⟩ := mem_ite_nil_left hp
    exact pairClean_mk _ _ (by decide) (by decide) (by decide) h4.1
      (fun he => hne (by rw [he]; rfl)) h4.2
  · obtain ⟨hne, rfl⟩ := mem_ite_nil_left hp
    exact pairClean_mk _ _ (by decide) (by decide) (by decide) h5.1
      (fun he => hne (by rw [he]; rfl)) h5.2
  · obtain ⟨hne, rfl⟩ := mem_ite_nil_left hp
    exact pairClean_mk _ _ (by decide) (by decide) (by decide) h6.1
      (fun he => hne (by rw [he]; rfl)) h6.2
  · obtain ⟨hne, rfl⟩ := mem_ite_nil_left hp
    exact pairClean_mk _ _ (by decide) (by decide) (by decide) h7.1
      (fun he => hne (by rw [he]; rfl)) h7.2
  · obtain ⟨_, rfl⟩ := mem_ite_nil_right hp
    exact pairClean_mk _ _ (by decide) (by decide) (by decide) (by decide)
      (by decide) (by decide)
  · obtain ⟨hne, rfl⟩ := mem_ite_nil_left hp
    exact pairClean_mk _ _ (by decide) (by decide) (by decide) h8.1
      (fun he => hne (by rw [he]; rfl)) h8.2
  · obtain ⟨hne, rfl⟩ := mem_ite_nil_left hp
    exact pairClean_mk _ _ (by decide) (by decide) (by decide) h9.1
      (fun he => hne (by rw [he]; rfl)) h9.2
  · obtain ⟨_, rfl⟩ := mem_ite_nil_right hp
    exact pairClean_mk _ _ (by decide) (by decide) (by decide) (by decide)
      (by decide) (by decide)
  · obtain ⟨_, rfl⟩ := mem_ite_nil_right hp
    exact pairClean_mk _ _ (by decide) (by decide) (by decide) (by decide)
      (by decide) (by decide)
  · obtain ⟨hpos, rfl⟩ := mem_ite_nil_right hp
    have hgi : goItoa m.dispatchFailures = natToStr m.dispatchFailures.toNat := by
      unfold goItoa
      rw [if_neg (by omega)]
    obtain ⟨hts, hnn, hnl⟩ := digits_value_clean m.dispatchFailures.toNat
    refine pairClean_mk _ _ (by decide) (by decide) (by decide) ?_ ?_ ?_
    · rw [hgi]; exact hts
    · rw [hgi]; exact hnn
    · rw [hgi]; exact hnl
  · obtain ⟨hne, rfl⟩ := mem_ite_nil_left hp
    exact pairClean_mk _ _ (by decide) (by decide) (by decide) h10.1
      (fun he => hne (by rw [he]; rfl)) h10.2

theorem foldl_formatPairs (m : QueueMetadata) (h : CleanMetadata m) :
    List.foldl (fun a p => applyLine p.1 p.2 a) ⟨QueueMetadata.empty, []⟩
        (formatPairs m)
      = ⟨{ targetRig := m.targetRig, formula := m.formula, args := m.args,
           vars := [], enqueuedAt := m.enqueuedAt, merge := m.merge,
           convoy := m.convoy, baseBranch := m.baseBranch, noMerge := m.noMerge,
           account := m.account, agent := m.agent,
           hookRawBead := m.hookRawBead, owned := m.owned,
           dispatchFailures := m.dispatchFailures,
           lastFailure := m.lastFailure },
         if m.vars = [] then [] else splitOnChar '\n' m.vars⟩ := by
  obtain ⟨h1, h2, h3, h4, h5, h6, h7, h8, h9, h10, hv, hd0, hd1⟩ := h
  unfold formatPairs
  simp only [List.foldl_append]
  rw [foldl_seg_targetRig, foldl_seg_formula, foldl_seg_args,
    foldl_seg_vars _ _ hv, foldl_seg_enqueuedAt, foldl_seg_merge,
    foldl_seg_convoy, foldl_seg_baseBranch, foldl_seg_noMerge,
    foldl_seg_account, foldl_seg_agent, foldl_seg_hookRawBead,
    foldl_seg_owned, foldl_seg_dispatchFailures _ _ hd0 hd1,
    foldl_seg_lastFailure]
  refine congrArg₂ ParseAcc.mk ?_ ?_
  · congr 1 <;> simp [QueueMetadata.empty, ite_isEmpty_self] <;> omega
  · rfl

theorem isEmpty_eq_true_iff {α : Type} (l : List α) : l.isEmpty = true ↔ l = [] := by
  cases l <;> simp

set_option maxHeartbeats 2000000 in
theorem parse_format_clean (m : QueueMetadata) (h : CleanMetadata m) :
    ParseQueueMetadata (FormatQueueMetadata m) = some m := by
  have hpairs := formatPairs_clean m h
  have hnl : ∀ l ∈ (formatPairs m).map renderKV, ('\n' : Char) ∉ l := by
    intro l hl
    obtain ⟨p, hp, rfl⟩ := List.mem_map.mp hl
    exact renderKV_no_newline p (hpairs p hp)
  obtain ⟨sect, hfs, hsplit⟩ := format_decomp ((formatPairs m).map renderKV) hnl
  have hpl := parseLines_pairs (formatPairs m) [] ⟨QueueMetadata.empty, []⟩ hpairs
  rw [List.append_nil] at hpl
  have hfold := foldl_formatPairs m h
  unfold ParseQueueMetadata FormatQueueMetadata
  rw [hfs]
  show some (if (parseLines (splitOnChar '\n' sect)
                  ⟨QueueMetadata.empty, []⟩).varLines.isEmpty
             then (parseLines (splitOnChar '\n' sect) ⟨QueueMetadata.empty, []⟩).m
             else { (parseLines (splitOnChar '\n' sect)
                      ⟨QueueMetadata.empty, []⟩).m with
                    vars := joinChar '\n' (parseLines (splitOnChar '\n' sect)
                      ⟨QueueMetadata.empty, []⟩).varLines })
      = some m
  rw [hsplit, parseLines_blank, hpl, parseLines_nil, hfold]
  dsimp only
  by_cases hvs : m.vars = []
  · rw [if_pos hvs]
    show some ({ targetRig := m.targetRig, formula := m.formula,
                 args := m.args, vars := [], enqueuedAt := m.enqueuedAt,
                 merge := m.merge, convoy := m.convoy,
                 baseBranch := m.baseBranch, noMerge := m.noMerge,
                 account := m.account, agent := m.agent,
                 hookRawBead := m.hookRawBead, owned := m.owned,
                 dispatchFailures := m.dispatchFailures,
                 lastFailure := m.lastFailure } : QueueMetadata) = some m
    rw [← hvs]
  · rw [if_neg hvs]
    rw [joinChar_splitOnChar '\n' m.vars]
    rw [if_neg (fun hI : (splitOnChar '\n' m.vars).isEmpty = true =>
      splitOnChar_ne_nil '\n' m.vars
        ((isEmpty_eq_true_iff (splitOnChar '\n' m.vars)).mp hI))]

/-!
## Claim theorems
-/

/-- C1 (corrected): codec round-trip.  For every `QueueMetadata` record
whose string fields are newline-free and trim-invariant, whose `Vars` field
is empty or a newline-join of non-empty trim-invariant entries, and whose
`dispatch_failures` counter is a non-negative representable 64-bit value,
`ParseQueueMetadata (FormatQueueMetadata m) = some m` — every field is
recovered unchanged. -/
theorem queue_metadata_roundtrip_clean (m : QueueMetadata)
    (h : CleanMetadata m) :
    ParseQueueMetadata (FormatQueueMetadata m) = some m :=
  parse_format_clean m h

theorem queue_metadata_roundtrip_clean_witness :
    CleanMetadata sampleMetadata ∧
    ParseQueueMetadata (FormatQueueMetadata sampleMetadata)
      = some sampleMetadata :=
  ⟨by decide, queue_metadata_roundtrip_clean sampleMetadata (by decide)⟩

/-- C1 counterexample: a record whose `Args` value contains a newline is
not recovered — the formatted block splits the value across lines and the
parser drops the second line, so the round-trip law fails as universally
stated. -/
theorem queue_metadata_roundtrip_counterexample :
    ParseQueueMetadata (FormatQueueMetadata
        ({ QueueMetadata.empty with targetRig := str "r", args := str "a\nb" }))
      ≠ some ({ QueueMetadata.empty with targetRig := str "r", args := str "a\nb" }) := by
  decide

theorem trimRightNewlines_eq_rdrop (l : Str) :
    trimRightNewlines l = l.rdropWhile (fun c => c = '\n') := rfl

theorem trimRightNewlines_append (l : Str) :
    ∃ u, trimRightNewlines l ++ u = l := by
  rw [trimRightNewlines_eq_rdrop]
  obtain ⟨u, hu⟩ := List.rdropWhile_prefix (fun c => c = '\n') l
  exact ⟨u, hu⟩

/-- C10 (confirmed): `StripQueueMetadata` eliminates the metadata block
completely — the stripped description contains no occurrence of the
delimiter `---gt:queue:v1---`, re-parsing it yields `none`, and stripping
is idempotent. -/
theorem strip_eliminates_delimiter (d : Str) :
    goContains delimStr (StripQueueMetadata d) = false ∧
    ParseQueueMetadata (StripQueueMetadata d) = none ∧
    StripQueueMetadata (StripQueueMetadata d) = StripQueueMetadata d := by
  have hdelim : delimStr ≠ [] := by decide
  cases hfs : findSub delimStr d with
  | none =>
    have hstrip : StripQueueMetadata d = d := by
      unfold StripQueueMetadata; rw [hfs]
    rw [hstrip]
    refine ⟨?_, ?_, ?_⟩
    · unfold goContains; rw [hfs]; rfl
    · unfold ParseQueueMetadata; rw [hfs]
    · exact hstrip
  | some p =>
    obtain ⟨b, a⟩ := p
    have hstrip : StripQueueMetadata d = trimRightNewlines b := by
      unfold StripQueueMetadata; rw [hfs]
    have hbnone : findSub delimStr b = none :=
      findSub_before_none delimStr d b a hdelim hfs
    obtain ⟨u, hu⟩ := trimRightNewlines_append b
    have hnone : findSub delimStr (trimRightNewlines b) = none := by
      apply findSub_none_of_append delimStr (trimRightNewlines b) u hdelim
      rw [hu]; exact hbnone
    rw [hstrip]
    refine ⟨?_, ?_, ?_⟩
    · unfold goContains; rw [hnone]; rfl
    · unfold ParseQueueMetadata; rw [hnone]
    · unfold StripQueueMetadata; rw [hnone]

/-- C2 (confirmed): circuit-breaker filtering of the ready set.  The
per-bead filter of `getReadyQueuedBeadsFrom` excludes exactly the beads
whose description parses to metadata with `dispatch_failures ≥ 3`
(`circuitBreakerSkips`, written from the spec's sentence), and a bead whose
`dispatch_failures` value does not parse as an integer gets counter `0` and
is included — not skipped, and no per-bead error exists. -/
theorem ready_set_circuit_breaker :
    (∀ r : RawBead, circuitBreakerSkips r = true ↔
        ∃ meta, ParseQueueMetadata r.description = some meta ∧
          maxDispatchFailures ≤ meta.dispatchFailures) ∧
    (∀ raw : List RawBead, getReadyQueuedBeadsFrom raw
        = raw.filterMap fun r =>
            if circuitBreakerSkips r then none else some (readyBeadOf r)) ∧
    (ParseQueueMetadata corruptDesc).map (fun meta => meta.dispatchFailures)
        = some 0 ∧
    getReadyQueuedBeadsFrom [corruptRawBead] = [readyBeadOf corruptRawBead] := by
  refine ⟨?_, ?_, by decide, by decide⟩
  · intro r
    unfold circuitBreakerSkips
    cases h : ParseQueueMetadata r.description with
    | none => simp
    | some meta => simp [decide_eq_true_eq]
  · intro raw
    induction raw with
    | nil => rfl
    | cons r rest ih =>
      show (match ParseQueueMetadata r.description with
            | some meta =>
              if maxDispatchFailures ≤ meta.dispatchFailures then
                getReadyQueuedBeadsFrom rest
              else
                ⟨r.id, r.title, meta.targetRig, r.description, r.labels⟩ ::
                  getReadyQueuedBeadsFrom rest
            | none =>
              ⟨r.id, r.title, [], r.description, r.labels⟩ ::
                getReadyQueuedBeadsFrom rest)
          = List.filterMap _ (r :: rest)
      rw [List.filterMap_cons]
      cases h : ParseQueueMetadata r.description with
      | none =>
        have hskip : circuitBreakerSkips r = false := by
          unfold circuitBreakerSkips; rw [h]
        have hready : readyBeadOf r
            = ⟨r.id, r.title, [], r.description, r.labels⟩ := by
          unfold readyBeadOf; rw [h]
        simp [hskip, hready, ih]
      | some meta =>
        have hskip : circuitBreakerSkips r
            = decide (maxDispatchFailures ≤ meta.dispatchFailures) := by
          unfold circuitBreakerSkips; rw [h]
        have hready : readyBeadOf r
            = ⟨r.id, r.title, meta.targetRig, r.description, r.labels⟩ := by
          unfold readyBeadOf; rw [h]
        by_cases hf : maxDispatchFailures ≤ meta.dispatchFailures
        · simp [hskip, hready, hf, ih]
        · simp [hskip, hready, hf, ih]

/-- C3 (confirmed): dispatch-count math.  For non-negative inputs,
`computeDispatchCount` is `min batchSize readyCount` when `capacity = 0`
(unlimited) and `min capacity (min batchSize readyCount)` when
`capacity > 0`. -/
theorem computeDispatchCount_spec (capacity batchSize readyCount : Int)
    (hc : 0 ≤ capacity) (hb : 0 ≤ batchSize) (hr : 0 ≤ readyCount) :
    (capacity = 0 → computeDispatchCount capacity batchSize readyCount
        = min batchSize readyCount) ∧
    (0 < capacity → computeDispatchCount capacity batchSize readyCount
        = min capacity (min batchSize readyCount)) := by
  unfold computeDispatchCount
  simp only [Bool.and_eq_true, decide_eq_true_eq]
  constructor <;> intro h <;> split_ifs <;> omega

theorem computeDispatchCount_spec_witness :
    ((0 : Int) ≤ 2 ∧ (0 : Int) ≤ 3 ∧ (0 : Int) ≤ 1) ∧
    (((2 : Int) = 0 → computeDispatchCount 2 3 1 = min 3 1) ∧
     ((0 : Int) < 2 → computeDispatchCount 2 3 1 = min 2 (min 3 1))) :=
  ⟨⟨by decide, by decide, by decide⟩,
    computeDispatchCount_spec 2 3 1 (by decide) (by decide) (by decide)⟩

/-- C4 (corrected): backoff step function.  For every current duration
below 2^62 nanoseconds (so that the 64-bit doubling cannot overflow),
`nextBackoffInterval current` is 30s when `current < 30s` and
`min (current * 2) 5min` otherwise; the spec's table holds, including
`b(c) = 5min` for every `c ≥ 5min` below the overflow bound. -/
theorem nextBackoffInterval_spec (current : Int)
    (h : current < 4611686018427387904) :
    (nextBackoffInterval current
      = if current < 30 * nsPerSec then 30 * nsPerSec
        else min (current * 2) (300 * nsPerSec)) ∧
    nextBackoffInterval 0 = 30 * nsPerSec ∧
    nextBackoffInterval (30 * nsPerSec) = 60 * nsPerSec ∧
    nextBackoffInterval (60 * nsPerSec) = 120 * nsPerSec ∧
    nextBackoffInterval (120 * nsPerSec) = 240 * nsPerSec ∧
    nextBackoffInterval (240 * nsPerSec) = 300 * nsPerSec ∧
    (300 * nsPerSec ≤ current → nextBackoffInterval current = 300 * nsPerSec) := by
  refine ⟨?_, by decide, by decide, by decide, by decide, by decide, ?_⟩
  · unfold nextBackoffInterval wrap64 minBackoff maxBackoff nsPerSec
    dsimp only
    split_ifs <;> omega
  · intro h5
    unfold nsPerSec at h5
    unfold nextBackoffInterval wrap64 minBackoff maxBackoff nsPerSec
    dsimp only
    split_ifs <;> omega

theorem nextBackoffInterval_spec_witness :
    ((600 * nsPerSec : Int) < 4611686018427387904) ∧
    nextBackoffInterval (600 * nsPerSec) = 300 * nsPerSec :=
  ⟨by decide, by
    have h := nextBackoffInterval_spec (600 * nsPerSec) (by decide)
    exact h.2.2.2.2.2.2 (by decide)⟩

/-- C4 counterexample: at `current = 2^62` nanoseconds the Go doubling
`current * 2` wraps to `-2^63`, which the cap comparison then returns, so
the claimed `min (current * 2) 5min` value (5 minutes) is not produced. -/
theorem nextBackoffInterval_counterexample :
    nextBackoffInterval 4611686018427387904 = -9223372036854775808 ∧
    min ((4611686018427387904 : Int) * 2) (300 * nsPerSec) = 300 * nsPerSec := by
  refine ⟨by decide, by decide⟩

/-- C5 (corrected): idle-wait sleep selection.  The sleep duration chosen
by `runDeaconIdleWait` equals `BackoffInterval` capped above by the
`--max` flag, with non-positive intervals replaced by 30 seconds; values
strictly between 0 and 30 seconds pass through unchanged, so the chosen
duration is not the claimed clamp to the range [30s, max]. -/
theorem idleWaitSleep_spec (backoffInterval maxFlag : Int) :
    idleWaitSleep backoffInterval maxFlag
      = min (if backoffInterval ≤ 0 then 30 * nsPerSec else backoffInterval)
          maxFlag := by
  unfold idleWaitSleep nsPerSec
  dsimp only
  split_ifs <;> omega

/-- C5 counterexample: with `BackoffInterval = 10s` and `--max = 5min` the
code sleeps 10 seconds, whereas the claimed clamp to [30s, max] gives 30
seconds. -/
theorem idleWaitSleep_counterexample :
    idleWaitSleep (10 * nsPerSec) (300 * nsPerSec) = 10 * nsPerSec ∧
    clampSpec (10 * nsPerSec) (30 * nsPerSec) (300 * nsPerSec) = 30 * nsPerSec ∧
    idleWaitSleep (10 * nsPerSec) (300 * nsPerSec)
      ≠ clampSpec (10 * nsPerSec) (30 * nsPerSec) (300 * nsPerSec) := by
  refine ⟨by decide, by decide, by decide⟩

/-- C6 (confirmed): wake-policy predicate.  `ShouldWake` holds exactly when
the state is active, `now` is at or past `ResetAt` plus the 2-minute
buffer, fewer than 3 wake attempts were made, and the last wake attempt is
the zero time or at least the 5-minute cooldown ago. -/
theorem shouldWake_iff (s : UsageLimitState) (now : Int) :
    s.ShouldWake now = true ↔
      (s.active = true ∧ s.resetAt + wakeBuffer ≤ now ∧
       s.wakeAttempts < maxWakeAttempts ∧
       (s.lastWakeAttempt = 0 ∨ wakeAttemptCooldown ≤ now - s.lastWakeAttempt)) := by
  unfold UsageLimitState.ShouldWake
  cases hac : s.active <;>
    simp [hac] <;> split_ifs <;> simp_all <;> omega

/-- C7 (code bug): ordered first-match detection.  The detector matches
the pattern table with `strings.Contains`, so the regex-syntax entry
`status.*429` can never match ordinary text; for the transcript
`status code: 429` the recorded reason is `HTTP 429` (from the bare `429`
entry), not the claimed `HTTP 429 Too Many Requests`. -/
theorem detectUsageLimit_status429_bug :
    detectUsageLimitReason (str "status code: 429") = some (str "HTTP 429") ∧
    goContains (str "status.*429") (goToLower (str "status code: 429")) = false ∧
    str "HTTP 429" ≠ str "HTTP 429 Too Many Requests" := by
  refine ⟨by decide, by decide, by decide⟩

/-- C8 (corrected): enqueue rollback.  When the description write succeeds
and the label-add fails, `enqueueBead` returns an error, no `gt:queued`
label is present (assuming it was absent before), and the description has
been rewritten to `StripQueueMetadata` of its pre-call value — which is
byte-identical to the pre-call value exactly when that value contained no
metadata delimiter. -/
theorem enqueue_rollback_spec (desc0 : Str) (labels0 : List Str)
    (metaBlock : Str) (hlab : labelQueued ∉ labels0) :
    (enqueueCommitProtocol desc0 labels0 metaBlock true false).ok = false ∧
    labelQueued ∉ (enqueueCommitProtocol desc0 labels0 metaBlock true false).labels ∧
    (enqueueCommitProtocol desc0 labels0 metaBlock true false).description
      = StripQueueMetadata desc0 ∧
    (findSub delimStr desc0 = none →
      (enqueueCommitProtocol desc0 labels0 metaBlock true false).description
        = desc0) := by
  refine ⟨rfl, hlab, rfl, ?_⟩
  intro hno
  show StripQueueMetadata desc0 = desc0
  unfold StripQueueMetadata
  rw [hno]

theorem enqueue_rollback_spec_witness :
    labelQueued ∉ ([] : List Str) ∧
    (enqueueCommitProtocol (str "d") [] (str "MB") true false).description
      = StripQueueMetadata (str "d") :=
  ⟨by decide, (enqueue_rollback_spec (str "d") [] (str "MB") (by decide)).2.2.1⟩

/-- C8 counterexample: when the pre-call description already contains a
metadata block, the rollback rewrites the stripped base, so the
description after the failed enqueue is not byte-identical to the pre-call
value. -/
theorem enqueue_rollback_counterexample :
    (enqueueCommitProtocol (str "x\n---gt:queue:v1---\ntarget_rig: old") []
        (str "META") true false).description
      ≠ str "x\n---gt:queue:v1---\ntarget_rig: old" := by
  decide

/-- C9 (corrected): enqueue idempotence.  For a bead that exists, carries
`gt:queued` and has status `open`, the call is a no-op success regardless
of the options passed — provided also that the rig name is known, the
bead-info lookup succeeds, and (unless `--force`) the cross-rig guard
passes; those earlier validation steps run before the no-op check. -/
theorem enqueue_idempotence_spec (rigKnown crossRigOk infoOk formulaKnown : Bool)
    (info : BeadInfo) (opts : EnqueueOptions)
    (hrig : rigKnown = true)
    (hcross : opts.force = true ∨ crossRigOk = true)
    (hinfo : infoOk = true)
    (hlabel : labelQueued ∈ info.labels)
    (hstatus : info.status = str "open") :
    enqueueDecision true rigKnown crossRigOk infoOk info formulaKnown opts
      = EnqueueDecision.noopAlreadyQueued := by
  subst hrig
  subst hinfo
  have hhas : hasQueuedLabel info.labels = true := by
    unfold hasQueuedLabel
    rw [List.any_eq_true]
    exact ⟨labelQueued, hlabel, by simp⟩
  unfold enqueueDecision
  rcases hcross with hforce | hcr
  · simp [hforce, hhas, hstatus]
  · simp [hcr, hhas, hstatus]

theorem enqueue_idempotence_spec_witness :
    ((true : Bool) = true ∧
     (((⟨[], [], [], [], [], false, false, false, false, false, [], [],
         false⟩ : EnqueueOptions).force = true ∨ (true : Bool) = true)) ∧
     (true : Bool) = true ∧
     labelQueued ∈ [labelQueued] ∧
     (str "open") = str "open") ∧
    enqueueDecision true true true true
        ⟨str "open", [], [labelQueued], [], []⟩ true
        ⟨[], [], [], [], [], false, false, false, false, false, [], [], false⟩
      = EnqueueDecision.noopAlreadyQueued :=
  ⟨⟨rfl, Or.inr rfl, rfl, by simp, rfl⟩,
    enqueue_idempotence_spec true true true true
      ⟨str "open", [], [labelQueued], [], []⟩
      ⟨[], [], [], [], [], false, false, false, false, false, [], [], false⟩
      rfl (Or.inr rfl) rfl (by simp) rfl⟩

/-- C9 counterexample: a call on an already-queued open bead with an
unknown rig name errors out before the idempotency check, so it is not a
no-op success. -/
theorem enqueue_idempotence_counterexample :
    enqueueDecision true false true true
        ⟨str "open", [], [labelQueued], [], []⟩ true
        ⟨[], [], [], [], [], false, false, false, false, false, [], [], false⟩
      = EnqueueDecision.errUnknownRig ∧
    EnqueueDecision.errUnknownRig ≠ EnqueueDecision.noopAlreadyQueued := by
  refine ⟨by decide, by decide⟩
